import Mathlib

/-!
Verification of the pngCompressor native module (src/src/lib.rs) against its
natural-language specification.

The source is a neon (Node.js native) module with three functions:
`perform` (lines 27-36), `compress` (lines 56-102) and `create_compress_task`
(lines 104-127).  The development below embeds them shallowly:

* host-runtime values are modelled by `JsVal`, covering exactly the shapes the
  code distinguishes through `downcast`;
* the external collaborator `oxipng::optimize` is abstracted by a boolean
  oracle `oracle input output` (true = success);
* the `PNG_COMPRESS_THREADS` value is an `Option String` argument;
* Rust panics (a failed `unwrap`, or the `chunk_size = 0` assertion inside
  `slice::chunks`) and neon throws are modelled as `Except.error`;
* machine integers (`usize`) are `Nat`; the single floating-point computation
  (line 80) is treated through the abstract rounding interface `F64Round`.
-/

namespace PngCompressor

/-- Values crossing the JavaScript boundary, as far as `compress` inspects
them: it downcasts the array elements to objects and their `in` and `out`
properties to strings; every other runtime shape matters only through the
failure of such a downcast, so a numeric payload and an `undefined`
placeholder stand for all remaining shapes. -/
inductive JsVal : Type where
  | undefined : JsVal
  | num : Int → JsVal
  | str : String → JsVal
  | obj : List (String × JsVal) → JsVal

/-- `struct CompressTask` (lines 8-11): one compression unit with an input
path and an output path. -/
structure CompressTask : Type where
  input : String
  out : String
deriving DecidableEq

/-- Abnormal terminations of the native call: `malformedJob` models the neon
throw raised by a failed `downcast().or_throw().unwrap()` while building the
task vector; `workerPanic` models a Rust panic inside a spawned worker, which
the dispatcher turns into a fatal error at `handle.join().unwrap()`. -/
inductive CompressError : Type where
  | malformedJob : CompressError
  | workerPanic : String → CompressError
deriving DecidableEq

/-- `perform` (lines 27-36): run the external optimizer on one file and map
`Ok` to the sentinel "done" and `Err` to the sentinel "error".  The external
primitive is the oracle; its `Result` is the oracle's boolean. -/
def perform (oracle : String → String → Bool) (inputfile outputfile : String) : String :=
  match oracle inputfile outputfile with
  | true => "done"
  | false => "error"

/-- `create_compress_task` (lines 104-127): downcast the value to an object,
read properties `in` and `out`, and downcast each to a string.  A failed
downcast is an `or_throw` followed by `unwrap`, which aborts the call with
the malformed-job error.  A missing property reads as `undefined` in
JavaScript and fails the string downcast, which the `Option.none` branch of
the lookup models. -/
def create_compress_task (val : JsVal) : Except CompressError CompressTask :=
  match val with
  | JsVal.obj fields =>
    match fields.lookup "in" with
    | some (JsVal.str infilename) =>
      match fields.lookup "out" with
      | some (JsVal.str outfilename) => Except.ok { input := infilename, out := outfilename }
      | _ => Except.error CompressError.malformedJob
    | _ => Except.error CompressError.malformedJob
  | _ => Except.error CompressError.malformedJob

/-- The numeric value of an ASCII digit, `none` on every other character. -/
def digitVal (c : Char) : Option Nat :=
  if c.isDigit then some (c.toNat - '0'.toNat) else none

/-- Strip one optional leading plus sign, as Rust integer parsing does. -/
def stripPlus (cs : List Char) : List Char :=
  match cs with
  | c :: rest => if c = '+' then rest else c :: rest
  | [] => []

/-- Horner evaluation of a digit string, `none` on a non-digit. -/
def digitsVal (cs : List Char) : Option Nat :=
  cs.foldl (fun acc c =>
    match acc, digitVal c with
    | some n, some d => some (n * 10 + d)
    | _, _ => none) (some 0)

/-- Rust `str::parse::<usize>`: an optional leading plus sign followed by at
least one ASCII digit, with values at or above 2 ^ 64 rejected as positive
overflow (usize is 64 bits on every platform this module targets). -/
def parseUsize (s : String) : Option Nat :=
  match stripPlus s.toList with
  | [] => none
  | c :: rest =>
    match digitsVal (c :: rest) with
    | some n => if n < 2 ^ 64 then some n else none
    | none => none

/-- Lines 73-77: the worker-count hint.  `option_env!` yields the
`PNG_COMPRESS_THREADS` value or the fallback "8", and a parse failure falls
back to 1 via `unwrap_or(1)`. -/
def hintOf (env : Option String) : Nat :=
  (parseUsize (env.getD "8")).getD 1

/-- Line 78: `num_threads = hint.max(compress_arr.len())`. -/
def num_threads (env : Option String) (len : Nat) : Nat :=
  (hintOf env).max len

/-- Line 80: the source computes `(len as f64 / num_threads as f64).ceil()
as usize`.  Theorem `float_chunk_size` shows that on every state reachable
at the call site this float computation agrees with the integer ceiling
below; the `w = 0` branch mirrors the NaN of `0.0 / 0.0` being cast to 0,
which arises only for an empty batch with a hint parsed as 0. -/
def chunk_size (n w : Nat) : Nat :=
  if w = 0 then 0 else (n + w - 1) / w

/-- Fuel-indexed core of Rust `slice::chunks`: successive sub-slices of `k`
elements, the last possibly shorter.  The fuel argument only drives
termination; `listChunks` instantiates it with the slice length, which
suffices whenever `k` is non-zero. -/
def chunksAux {α : Type} (k : Nat) : Nat → List α → List (List α)
  | _, [] => []
  | 0, _ :: _ => []
  | fuel + 1, x :: xs => ((x :: xs).take k) :: chunksAux k fuel ((x :: xs).drop k)

/-- Rust `data.chunks(k)` materialized as a list of chunks.  The source
guards the `k = 0` panic separately, inside `worker_run`. -/
def listChunks {α : Type} (k : Nat) (l : List α) : List (List α) :=
  chunksAux k l.length l

/-- The closure spawned for worker `idx` (lines 83-95): `chunks(chunk_size)`
panics when the chunk size is 0, `.nth(idx).unwrap()` panics when the worker
index is at or beyond the number of chunks, and otherwise the worker calls
`perform` once per task of its slice, in slice order, discarding the
returned sentinel.  The value of the `Except.ok` branch records the
`(input, out)` argument pairs of those `perform` invocations, in invocation
order (specification instrumentation; the source discards them). -/
def worker_run (oracle : String → String → Bool) (chunkSize idx : Nat)
    (jobs : List CompressTask) : Except CompressError (List (String × String)) :=
  if chunkSize = 0 then Except.error (CompressError.workerPanic "chunk size must be non-zero")
  else
    match (listChunks chunkSize jobs)[idx]? with
    | none => Except.error (CompressError.workerPanic "unwrap on None")
    | some slice =>
      Except.ok (slice.map fun item =>
        let _ := perform oracle item.input item.out
        (item.input, item.out))

/-- The join loop of lines 98-100: unwrap the handles of the given worker
indices in spawn order, so the lowest-index panicking worker determines the
propagated error; on success, collect the workers' invocation lists in index
order. -/
def join_workers (oracle : String → String → Bool) (k : Nat) (jobs : List CompressTask) :
    List Nat → Except CompressError (List (List (String × String)))
  | [] => Except.ok []
  | idx :: rest =>
    match worker_run oracle k idx jobs with
    | Except.error e => Except.error e
    | Except.ok tr =>
      match join_workers oracle k jobs rest with
      | Except.error e => Except.error e
      | Except.ok trs => Except.ok (tr :: trs)

/-- Lines 68-101 after task building: compute the worker count and the chunk
size, spawn workers `0 .. num_threads - 1` and join them all. -/
def dispatch (oracle : String → String → Bool) (tasks : List CompressTask)
    (env : Option String) : Except CompressError (Nat × List (List (String × String))) :=
  match join_workers oracle (chunk_size tasks.length (num_threads env tasks.length)) tasks
      (List.range (num_threads env tasks.length)) with
  | Except.error e => Except.error e
  | Except.ok traces => Except.ok (tasks.length, traces)

/-- Lines 59-66: build every task eagerly (the `collect`), aborting at the
first malformed record, before any thread is spawned. -/
def build_tasks (recs : List JsVal) : Except CompressError (List CompressTask) :=
  match recs with
  | [] => Except.ok []
  | r :: rest =>
    match create_compress_task r with
    | Except.error e => Except.error e
    | Except.ok t =>
      match build_tasks rest with
      | Except.error e => Except.error e
      | Except.ok ts => Except.ok (t :: ts)

/-- The `compress` entry point (lines 56-102): build the task vector, then
partition and execute it; the numeric result is `vec.len()`, the length of
the raw argument array. -/
def compress (recs : List JsVal) (env : Option String)
    (oracle : String → String → Bool) :
    Except CompressError (Nat × List (List (String × String))) :=
  match build_tasks recs with
  | Except.error e => Except.error e
  | Except.ok tasks =>
    match dispatch oracle tasks env with
    | Except.error e => Except.error e
    | Except.ok (_, traces) => Except.ok (recs.length, traces)

/-- An external primitive that always succeeds. -/
def oracleOk : String → String → Bool := fun _ _ => true

/-- An external primitive that always fails. -/
def oracleFail : String → String → Bool := fun _ _ => false

/-- The badness condition of the specification on a raw record: it has no
string-valued `in` property or no string-valued `out` property.  A record
that is not an object at all satisfies this vacuously. -/
def MalformedRecord (v : JsVal) : Prop :=
  ∀ fields, v = JsVal.obj fields →
    (∀ s, fields.lookup "in" ≠ some (JsVal.str s)) ∨
      (∀ s, fields.lookup "out" ≠ some (JsVal.str s))

/-- Abstract interface to the IEEE-754 binary64 rounding function that the
Rust casts `as f64` and the float division on line 80 apply to their exact
rational results: the rounding is monotone, and it fixes every exactly
representable value, of which the proof only needs 0, 1, 2 ^ 64 and
2 ^ (-64) (powers of two well inside the binary64 range).  Round to nearest,
ties to even - the rounding IEEE-754 prescribes for casts and for division -
satisfies all of these, as does every other IEEE-754 rounding mode. -/
structure F64Round (rnd : ℚ → ℚ) : Prop where
  mono : ∀ x y : ℚ, x ≤ y → rnd x ≤ rnd y
  fix_zero : rnd 0 = 0
  fix_one : rnd 1 = 1
  fix_big : rnd ((2 : ℚ) ^ 64) = (2 : ℚ) ^ 64
  fix_small : rnd (((2 : ℚ) ^ 64)⁻¹) = ((2 : ℚ) ^ 64)⁻¹

/-! ### Helper lemmas -/

theorem parseUsize_lt (s : String) (n : Nat) (h : parseUsize s = some n) : n < 2 ^ 64 := by
  unfold parseUsize at h
  split at h
  · exact Option.noConfusion h
  · split at h
    · split at h
      · rename_i m hm hlt
        cases h
        exact hlt
      · exact Option.noConfusion h
    · exact Option.noConfusion h

theorem hintOf_lt (env : Option String) : hintOf env < 2 ^ 64 := by
  unfold hintOf
  cases h : parseUsize (env.getD "8") with
  | none => simp [Option.getD]
  | some n => simpa using parseUsize_lt _ n h

theorem le_num_threads (env : Option String) (len : Nat) : len ≤ num_threads env len :=
  Nat.le_max_right _ _

theorem num_threads_le (env : Option String) (len : Nat) (h : len ≤ 2 ^ 64) :
    num_threads env len ≤ 2 ^ 64 :=
  Nat.max_le.mpr ⟨Nat.le_of_lt (hintOf_lt env), h⟩

theorem chunksAux_join {α : Type} (k : Nat) (hk : k ≠ 0) :
    ∀ (fuel : Nat) (l : List α), l.length ≤ fuel → (chunksAux k fuel l).flatten = l := by
  intro fuel
  induction fuel with
  | zero =>
    intro l hl
    have hnil : l = [] := List.eq_nil_of_length_eq_zero (Nat.le_zero.mp hl)
    subst hnil
    rfl
  | succ fuel ih =>
    intro l hl
    cases l with
    | nil => rfl
    | cons x xs =>
      show (((x :: xs).take k) :: chunksAux k fuel ((x :: xs).drop k)).flatten = x :: xs
      rw [List.flatten_cons, ih ((x :: xs).drop k) ?_, List.take_append_drop]
      simp only [List.length_drop, List.length_cons] at hl ⊢
      omega

theorem chunksAux_getElem {α : Type} (k : Nat) (hk : k ≠ 0) :
    ∀ (fuel : Nat) (l : List α) (i : Nat), l.length ≤ fuel →
      (chunksAux k fuel l)[i]? =
        if i * k < l.length then some ((l.drop (i * k)).take k) else none := by
  intro fuel
  induction fuel with
  | zero =>
    intro l i hl
    have hnil : l = [] := List.eq_nil_of_length_eq_zero (Nat.le_zero.mp hl)
    subst hnil
    simp [chunksAux]
  | succ fuel ih =>
    intro l i hl
    cases l with
    | nil => simp [chunksAux]
    | cons x xs =>
      cases i with
      | zero =>
        show (((x :: xs).take k) :: chunksAux k fuel ((x :: xs).drop k))[0]? = _
        rw [List.getElem?_cons_zero, if_pos (by simp)]
        simp
      | succ j =>
        show (((x :: xs).take k) :: chunksAux k fuel ((x :: xs).drop k))[j + 1]? = _
        rw [List.getElem?_cons_succ,
          ih ((x :: xs).drop k) j (by simp only [List.length_drop, List.length_cons] at hl ⊢; omega),
          List.drop_drop, List.length_drop]
        have harith : k + j * k = (j + 1) * k := by ring
        rw [harith]
        have hmul : j * k + k = (j + 1) * k := by ring
        by_cases hc : (j + 1) * k < (x :: xs).length
        · rw [if_pos (by omega), if_pos hc]
        · rw [if_neg (by omega), if_neg hc]

theorem listChunks_join {α : Type} (k : Nat) (hk : k ≠ 0) (l : List α) :
    (listChunks k l).flatten = l :=
  chunksAux_join k hk l.length l (Nat.le_refl _)

theorem listChunks_getElem {α : Type} (k : Nat) (hk : k ≠ 0) (l : List α) (i : Nat) :
    (listChunks k l)[i]? = if i * k < l.length then some ((l.drop (i * k)).take k) else none :=
  chunksAux_getElem k hk l.length l i (Nat.le_refl _)

theorem ceil_div_nat (n w : Nat) (hw : 0 < w) :
    ⌈(n : ℚ) / (w : ℚ)⌉ = ((n + w - 1) / w : ℕ) := by
  have hw0 : (0 : ℚ) < (w : ℚ) := by exact_mod_cast hw
  have hnw : 1 ≤ n + w := by omega
  have hmod := Nat.div_add_mod (n + w - 1) w
  have hrlt : (n + w - 1) % w < w := Nat.mod_lt _ hw
  set q : ℕ := (n + w - 1) / w with hq
  set r : ℕ := (n + w - 1) % w with hr
  have hmod2 : w * q + r + 1 = n + w := by omega
  have hcast : (w : ℚ) * q + r + 1 = n + w := by exact_mod_cast hmod2
  have hrw : (r : ℚ) + 1 ≤ w := by exact_mod_cast hrlt
  have hrpos : (0 : ℚ) ≤ r := by positivity
  rw [Int.ceil_eq_iff]
  constructor
  · rw [lt_div_iff₀ hw0]
    push_cast
    nlinarith [hcast, hrpos]
  · rw [div_le_iff₀ hw0]
    push_cast
    nlinarith [hcast, hrw]

theorem create_task_of_malformed (r : JsVal) (hbad : MalformedRecord r) :
    create_compress_task r = Except.error CompressError.malformedJob := by
  cases r with
  | undefined => rfl
  | num n => rfl
  | str s => rfl
  | obj fields =>
    rcases hbad fields rfl with hin | hout
    · cases h : fields.lookup "in" with
      | none => simp [create_compress_task, h]
      | some v =>
        cases v with
        | str s => exact absurd h (hin s)
        | undefined => simp [create_compress_task, h]
        | num m => simp [create_compress_task, h]
        | obj fs => simp [create_compress_task, h]
    · cases h : fields.lookup "in" with
      | none => simp [create_compress_task, h]
      | some v =>
        cases v with
        | str s =>
          cases h2 : fields.lookup "out" with
          | none => simp [create_compress_task, h, h2]
          | some v2 =>
            cases v2 with
            | str s2 => exact absurd h2 (hout s2)
            | undefined => simp [create_compress_task, h, h2]
            | num m => simp [create_compress_task, h, h2]
            | obj fs => simp [create_compress_task, h, h2]
        | undefined => simp [create_compress_task, h]
        | num m => simp [create_compress_task, h]
        | obj fs => simp [create_compress_task, h]

theorem create_task_error (v : JsVal) (e : CompressError)
    (h : create_compress_task v = Except.error e) : e = CompressError.malformedJob := by
  cases v with
  | undefined => cases h; rfl
  | num n => cases h; rfl
  | str s => cases h; rfl
  | obj fields =>
    cases h1 : fields.lookup "in" with
    | none => simp [create_compress_task, h1] at h; exact h.symm
    | some v1 =>
      cases v1 with
      | str s1 =>
        cases h2 : fields.lookup "out" with
        | none => simp [create_compress_task, h1, h2] at h; exact h.symm
        | some v2 =>
          cases v2 with
          | str s2 => simp [create_compress_task, h1, h2] at h
          | undefined => simp [create_compress_task, h1, h2] at h; exact h.symm
          | num m => simp [create_compress_task, h1, h2] at h; exact h.symm
          | obj fs => simp [create_compress_task, h1, h2] at h; exact h.symm
      | undefined => simp [create_compress_task, h1] at h; exact h.symm
      | num m => simp [create_compress_task, h1] at h; exact h.symm
      | obj fs => simp [create_compress_task, h1] at h; exact h.symm

theorem build_tasks_error (recs : List JsVal) (r : JsVal) (hr : r ∈ recs)
    (hco : create_compress_task r = Except.error CompressError.malformedJob) :
    build_tasks recs = Except.error CompressError.malformedJob := by
  induction recs with
  | nil => cases hr
  | cons a as ih =>
    rcases List.mem_cons.mp hr with rfl | hmem
    · unfold build_tasks
      rw [hco]
    · cases hca : create_compress_task a with
      | error e =>
        have he := create_task_error a e hca
        subst he
        unfold build_tasks
        rw [hca]
      | ok t =>
        unfold build_tasks
        rw [hca, ih hmem]

theorem worker_run_oracle_irrel (o1 o2 : String → String → Bool) (k idx : Nat)
    (jobs : List CompressTask) : worker_run o1 k idx jobs = worker_run o2 k idx jobs := rfl

theorem join_workers_oracle_irrel (o1 o2 : String → String → Bool) (k : Nat)
    (jobs : List CompressTask) (idxs : List Nat) :
    join_workers o1 k jobs idxs = join_workers o2 k jobs idxs := by
  induction idxs with
  | nil => rfl
  | cons i rest ih =>
    unfold join_workers
    rw [worker_run_oracle_irrel o1 o2, ih]

theorem dispatch_oracle_irrel (o1 o2 : String → String → Bool)
    (tasks : List CompressTask) (env : Option String) :
    dispatch o1 tasks env = dispatch o2 tasks env := by
  unfold dispatch
  rw [join_workers_oracle_irrel o1 o2]

theorem compress_oracle_irrel (o1 o2 : String → String → Bool)
    (recs : List JsVal) (env : Option String) :
    compress recs env o1 = compress recs env o2 := by
  unfold compress
  simp only [dispatch_oracle_irrel o1 o2]

/-! ### Claim theorems -/

/-- Claim C4 (code bug in the source): the claim says the empty batch
returns 0 and spawns its workers with empty assignments without error.  The
code instead computes `num_threads = max(8, 0) = 8` and
`chunk_size = ceil(0 / 8) = 0`, and every spawned worker panics immediately
inside `data.chunks(0)` - `slice::chunks` requires a non-zero chunk size -
so the whole call aborts at the first `join().unwrap()` instead of
returning 0. -/
theorem compress_empty_batch_panics :
    compress [] none oracleOk
      = Except.error (CompressError.workerPanic "chunk size must be non-zero")
    ∧ num_threads none 0 = 8 ∧ chunk_size 0 8 = 0 :=
  ⟨rfl, rfl, rfl⟩

/-- Claim C3 (code bug in the source): in the specification scenario - the
batch `[(a.png, a.png), (b.png, b.png)]` with hint 8 - the worker count is
`max(8, 2) = 8`, the chunk size is `ceil(2 / 8) = 1`, and workers 0 and 1
each process their single job.  But a worker whose index is at or beyond
the number of chunks does not receive an empty assignment: for it,
`.chunks(1).nth(idx)` is `None` and `.unwrap()` panics, so the dispatch
aborts at `join().unwrap()` instead of returning 2. -/
theorem compress_two_jobs_hint_eight_panics :
    compress [JsVal.obj [("in", JsVal.str "a.png"), ("out", JsVal.str "a.png")],
        JsVal.obj [("in", JsVal.str "b.png"), ("out", JsVal.str "b.png")]] none oracleOk
      = Except.error (CompressError.workerPanic "unwrap on None")
    ∧ num_threads none 2 = 8
    ∧ chunk_size 2 8 = 1
    ∧ worker_run oracleOk 1 0
        [CompressTask.mk "a.png" "a.png", CompressTask.mk "b.png" "b.png"]
        = Except.ok [("a.png", "a.png")]
    ∧ worker_run oracleOk 1 1
        [CompressTask.mk "a.png" "a.png", CompressTask.mk "b.png" "b.png"]
        = Except.ok [("b.png", "b.png")]
    ∧ worker_run oracleOk 1 2
        [CompressTask.mk "a.png" "a.png", CompressTask.mk "b.png" "b.png"]
        = Except.error (CompressError.workerPanic "unwrap on None") :=
  ⟨rfl, rfl, rfl, rfl, rfl, rfl⟩

/-- Claim C1 (code bug in the source): `compress` does not return the batch
size for every valid batch.  With the default hint 8 a valid single-record
batch spawns 8 workers, and worker 1 already panics unwrapping
`nth(1) = None`, so the call aborts instead of returning 1.  When the hint
does not exceed the batch length (here hint 1, one record) the call does
return the batch size, and does so identically when every compression
succeeds and when every compression fails. -/
theorem compress_return_count_failure :
    compress [JsVal.obj [("in", JsVal.str "a.png"), ("out", JsVal.str "b.png")]] none oracleOk
      = Except.error (CompressError.workerPanic "unwrap on None")
    ∧ compress [JsVal.obj [("in", JsVal.str "a.png"), ("out", JsVal.str "b.png")]]
        (some "1") oracleOk = Except.ok (1, [[("a.png", "b.png")]])
    ∧ compress [JsVal.obj [("in", JsVal.str "a.png"), ("out", JsVal.str "b.png")]]
        (some "1") oracleFail = Except.ok (1, [[("a.png", "b.png")]]) :=
  ⟨rfl, rfl, rfl⟩

/-- Claim C2, counterexample: the claim says a configured value that is
unparsable as a positive integer makes the hint fall back to 1.  The string
"0" is not parsable as a positive integer, yet `"0".parse::<usize>()`
succeeds with 0, so `unwrap_or(1)` is not taken: the hint is 0, and for an
empty batch the effective worker count is `max(0, 0) = 0`, not the
`max(1, 0) = 1` the claim prescribes. -/
theorem num_threads_zero_string :
    parseUsize "0" = some 0 ∧ num_threads (some "0") 0 = 0
    ∧ num_threads (some "0") 0 ≠ Nat.max 1 0 :=
  ⟨rfl, rfl, by decide⟩

/-- Claim C2 as amended: the effective worker count is
`max(hint, batch length)`, where the hint is 8 when `PNG_COMPRESS_THREADS`
is absent, is 1 when the configured string does not parse as a usize
(empty, signed, non-digit, or at least 2 ^ 64), and in general is the
parsed usize value - including 0 for the string "0" - with fallback 1 only
on a parse failure. -/
theorem num_threads_policy (n : Nat) (env : Option String) (s : String)
    (hfail : parseUsize s = none) :
    num_threads none n = Nat.max 8 n
    ∧ num_threads (some s) n = Nat.max 1 n
    ∧ num_threads env n = Nat.max ((parseUsize (env.getD "8")).getD 1) n := by
  refine ⟨rfl, ?_, rfl⟩
  unfold num_threads hintOf
  rw [Option.getD_some, hfail]
  rfl

/-- Witness for `num_threads_policy`: the string "abc" fails to parse, the
absent setting gives `max(8, 5) = 8` and the unparsable one `max(1, 5)`. -/
theorem num_threads_policy_witness :
    parseUsize "abc" = none
    ∧ num_threads none 5 = Nat.max 8 5
    ∧ num_threads (some "abc") 5 = Nat.max 1 5 :=
  ⟨rfl, (num_threads_policy 5 none "abc" rfl).1, (num_threads_policy 5 none "abc" rfl).2.1⟩

/-- Claim C8, counterexample: the builder does not guarantee non-empty
fields.  The record with an empty `in` string is accepted and produces a
descriptor whose input is the empty string, contradicting the claimed
invariant that both fields are non-empty. -/
theorem create_task_accepts_empty_string :
    create_compress_task (JsVal.obj [("in", JsVal.str ""), ("out", JsVal.str "x.png")])
      = Except.ok (CompressTask.mk "" "x.png")
    ∧ (CompressTask.mk "" "x.png").input = "" :=
  ⟨rfl, rfl⟩

/-- Claim C8 as amended: the builder produces a descriptor exactly when the
record is an object whose `in` and `out` properties are strings, and it
copies those strings verbatim into the descriptor - they may be empty.  No
other validation happens at construction: the builder is a pure function of
the record, so in particular no file-existence check is performed. -/
theorem create_task_characterization (v : JsVal) (t : CompressTask) :
    create_compress_task v = Except.ok t ↔
      ∃ fields, v = JsVal.obj fields
        ∧ fields.lookup "in" = some (JsVal.str t.input)
        ∧ fields.lookup "out" = some (JsVal.str t.out) := by
  constructor
  · intro h
    cases v with
    | undefined => exact Except.noConfusion h
    | num n => exact Except.noConfusion h
    | str s => exact Except.noConfusion h
    | obj fields =>
      refine ⟨fields, rfl, ?_⟩
      cases h1 : fields.lookup "in" with
      | none => simp [create_compress_task, h1] at h
      | some v1 =>
        cases v1 with
        | str s1 =>
          cases h2 : fields.lookup "out" with
          | none => simp [create_compress_task, h1, h2] at h
          | some v2 =>
            cases v2 with
            | str s2 =>
              simp [create_compress_task, h1, h2] at h
              rw [← h]
              exact ⟨rfl, rfl⟩
            | undefined => simp [create_compress_task, h1, h2] at h
            | num m => simp [create_compress_task, h1, h2] at h
            | obj fs => simp [create_compress_task, h1, h2] at h
        | undefined => simp [create_compress_task, h1] at h
        | num m => simp [create_compress_task, h1] at h
        | obj fs => simp [create_compress_task, h1] at h
  · rintro ⟨fields, rfl, h1, h2⟩
    simp [create_compress_task, h1, h2]

/-- Claim C6: a raw record without a string-valued `in` or `out` property
makes the call fail with the malformed-job error already while building the
task vector (lines 59-66), which runs to completion or aborts before the
dispatch phase ever starts: `compress` is the sequential composition of
`build_tasks` and `dispatch`, so the error, produced by `build_tasks`,
surfaces before any worker is spawned; and since it holds for every oracle,
no `perform` invocation - no file access - can have influenced or preceded
it, so the whole call aborts with zero work done. -/
theorem malformed_record_aborts (recs : List JsVal) (r : JsVal) (env : Option String)
    (oracle : String → String → Bool) (hr : r ∈ recs) (hbad : MalformedRecord r) :
    build_tasks recs = Except.error CompressError.malformedJob
    ∧ compress recs env oracle = Except.error CompressError.malformedJob := by
  have hb := build_tasks_error recs r hr (create_task_of_malformed r hbad)
  refine ⟨hb, ?_⟩
  unfold compress
  rw [hb]

/-- Witness for `malformed_record_aborts` at the specification's example
record, whose `in` property is the number 123 rather than a string. -/
theorem malformed_record_aborts_witness :
    build_tasks [JsVal.obj [("in", JsVal.num 123), ("out", JsVal.str "x.png")]]
      = Except.error CompressError.malformedJob
    ∧ compress [JsVal.obj [("in", JsVal.num 123), ("out", JsVal.str "x.png")]] none oracleOk
      = Except.error CompressError.malformedJob :=
  malformed_record_aborts _ (JsVal.obj [("in", JsVal.num 123), ("out", JsVal.str "x.png")])
    none oracleOk (List.mem_cons_self _ _)
    (by
      intro fields hf
      injection hf with hfs
      subst hfs
      left
      intro s hs
      have hlook : List.lookup "in" [("in", JsVal.num 123), ("out", JsVal.str "x.png")]
          = some (JsVal.num 123) := rfl
      rw [hlook] at hs
      exact JsVal.noConfusion (Option.some.inj hs))

/-- Claim C9: a worker with a valid slice performs exactly one `perform`
invocation per job descriptor of its slice, in slice order, and its slice
is the contiguous segment of the original batch starting at position
`idx * k` - so the jobs of one worker are processed in the order in which
they appear in the original batch. -/
theorem worker_processes_slice_in_order (oracle : String → String → Bool)
    (k idx : Nat) (jobs slice : List CompressTask)
    (hk : k ≠ 0) (hs : (listChunks k jobs)[idx]? = some slice) :
    worker_run oracle k idx jobs = Except.ok (slice.map fun t => (t.input, t.out))
    ∧ slice = (jobs.drop (idx * k)).take k := by
  constructor
  · unfold worker_run
    rw [if_neg hk, hs]
  · have h2 := listChunks_getElem k hk jobs idx
    rw [hs] at h2
    by_cases hc : idx * k < jobs.length
    · rw [if_pos hc] at h2
      exact Option.some.inj h2
    · rw [if_neg hc] at h2
      exact Option.noConfusion h2

/-- Witness for `worker_processes_slice_in_order`: chunk size 1, worker 0,
a one-job batch. -/
theorem worker_processes_slice_in_order_witness :
    worker_run oracleOk 1 0 [CompressTask.mk "a.png" "b.png"]
      = Except.ok [("a.png", "b.png")]
    ∧ [CompressTask.mk "a.png" "b.png"]
      = (([CompressTask.mk "a.png" "b.png"] : List CompressTask).drop (0 * 1)).take 1 :=
  worker_processes_slice_in_order oracleOk 1 0 [CompressTask.mk "a.png" "b.png"]
    [CompressTask.mk "a.png" "b.png"] (by decide) rfl

/-- Claim C7: `perform` always returns one of the two string sentinels -
"done" exactly when the external primitive succeeds, "error" exactly when
it fails - and never propagates an exception (it is a total function into
`String`).  Moreover the result of the whole `compress` call is the same
for every behaviour of the external primitive: the per-job outcome is
dropped at the call site (`perform(input, out);`), recorded nowhere, and
not surfaced to the caller. -/
theorem perform_outcome_swallowed (oracle o1 o2 : String → String → Bool)
    (inputfile outputfile : String) (recs : List JsVal) (env : Option String) :
    (perform oracle inputfile outputfile = "done"
      ∨ perform oracle inputfile outputfile = "error")
    ∧ (perform oracle inputfile outputfile = "done" ↔ oracle inputfile outputfile = true)
    ∧ (perform oracle inputfile outputfile = "error" ↔ oracle inputfile outputfile = false)
    ∧ compress recs env o1 = compress recs env o2 := by
  refine ⟨?_, ?_, ?_, compress_oracle_irrel o1 o2 recs env⟩
  · cases h : oracle inputfile outputfile
    · right
      simp [perform, h]
    · left
      simp [perform, h]
  · cases h : oracle inputfile outputfile <;> simp [perform, h]
  · cases h : oracle inputfile outputfile <;> simp [perform, h]

/-- Claim C5: for every batch and the worker count resulting from any
configuration, the chunk size equals the exact ceiling of
`batch length / worker count` (first conjunct, as integers), and the chunks
partition the batch: the concatenation of the chunks in worker order is
exactly the original job sequence - no duplicates, no omissions (second
conjunct) - and the chunk handed to worker `i` is the contiguous segment of
the batch starting at offset `i * chunk size` (third conjunct), so slices
of distinct workers occupy pairwise disjoint index ranges, and a worker
index at or beyond the number of chunks finds no chunk. -/
theorem chunk_partition_complete (jobs : List CompressTask) (env : Option String) :
    ((chunk_size jobs.length (num_threads env jobs.length) : ℤ)
        = ⌈(jobs.length : ℚ) / (num_threads env jobs.length : ℚ)⌉)
    ∧ (listChunks (chunk_size jobs.length (num_threads env jobs.length)) jobs).flatten = jobs
    ∧ ∀ i : Nat,
        (listChunks (chunk_size jobs.length (num_threads env jobs.length)) jobs)[i]?
          = if i * chunk_size jobs.length (num_threads env jobs.length) < jobs.length
            then some ((jobs.drop (i * chunk_size jobs.length (num_threads env jobs.length))).take
                (chunk_size jobs.length (num_threads env jobs.length)))
            else none := by
  cases jobs with
  | nil =>
    have hk0 : chunk_size (List.length ([] : List CompressTask))
        (num_threads env (List.length ([] : List CompressTask))) = 0 := by
      simp only [List.length_nil]
      unfold chunk_size
      split
      · rfl
      · rename_i hW0
        exact Nat.div_eq_of_lt (by omega)
    refine ⟨?_, ?_, ?_⟩
    · rw [hk0]
      simp
    · rw [hk0]
      rfl
    · intro i
      rw [hk0]
      simp [listChunks, chunksAux]
  | cons a as =>
    have hW1 : (a :: as).length ≤ num_threads env (a :: as).length := le_num_threads env _
    have hWpos : 0 < num_threads env (a :: as).length :=
      lt_of_lt_of_le (by simp) hW1
    have hWne : num_threads env (a :: as).length ≠ 0 := Nat.pos_iff_ne_zero.mp hWpos
    have hkpos : chunk_size (a :: as).length (num_threads env (a :: as).length) ≠ 0 := by
      unfold chunk_size
      rw [if_neg hWne]
      have hlenpos : 0 < (a :: as).length := by simp
      have h1 : num_threads env (a :: as).length
          ≤ (a :: as).length + num_threads env (a :: as).length - 1 := by omega
      have h2 := (Nat.one_le_div_iff hWpos).mpr h1
      omega
    refine ⟨?_, listChunks_join _ hkpos _, fun i => listChunks_getElem _ hkpos _ i⟩
    · unfold chunk_size
      rw [if_neg hWne]
      exact (ceil_div_nat _ _ hWpos).symm

/-- Claim C10: the chunk size of line 80, computed in 64-bit floating point
as `(N as f64 / W as f64).ceil() as usize`, equals the exact integer
ceiling of `N / W` for every batch length N (at most the usize bound
2 ^ 64) and every worker count `W = num_threads env N ≥ 1` arising at the
dispatch call site.  The two casts and the division result are each passed
through an arbitrary rounding function `rnd` with the `F64Round`
properties, which every IEEE-754 binary64 rounding function has; the first
conjunct identifies the rounded ceiling with the exact rational ceiling,
and the second with the integer `chunk_size` of this embedding (`toNat`
models the saturating `as usize` cast of the non-negative result). -/
theorem float_chunk_size (rnd : ℚ → ℚ) (hrnd : F64Round rnd) (env : Option String) (N : Nat)
    (hW : 1 ≤ num_threads env N) (hN : N ≤ 2 ^ 64) :
    ⌈rnd (rnd (N : ℚ) / rnd (num_threads env N : ℚ))⌉
        = ⌈(N : ℚ) / (num_threads env N : ℚ)⌉
    ∧ (⌈rnd (rnd (N : ℚ) / rnd (num_threads env N : ℚ))⌉).toNat
        = chunk_size N (num_threads env N) := by
  have hWN : N ≤ num_threads env N := le_num_threads env N
  have hW64 : num_threads env N ≤ 2 ^ 64 := num_threads_le env N hN
  have hWpos : 0 < num_threads env N := hW
  have hWne : num_threads env N ≠ 0 := Nat.pos_iff_ne_zero.mp hWpos
  have hWQ : (0 : ℚ) < (num_threads env N : ℚ) := by exact_mod_cast hWpos
  rcases Nat.eq_zero_or_pos N with hN0 | hNpos
  · subst hN0
    have hz : rnd ((0 : Nat) : ℚ) = 0 := by
      rw [Nat.cast_zero]
      exact hrnd.fix_zero
    have hcs : chunk_size 0 (num_threads env 0) = 0 := by
      unfold chunk_size
      rw [if_neg hWne]
      exact Nat.div_eq_of_lt (by omega)
    rw [hz, zero_div, hrnd.fix_zero, hcs]
    simp
  · have h1N : (1 : ℚ) ≤ (N : ℚ) := by exact_mod_cast hNpos
    have hNW : (N : ℚ) ≤ (num_threads env N : ℚ) := by exact_mod_cast hWN
    have hWle : (num_threads env N : ℚ) ≤ (2 : ℚ) ^ 64 := by exact_mod_cast hW64
    have hrn1 : (1 : ℚ) ≤ rnd (N : ℚ) := by
      have h := hrnd.mono 1 (N : ℚ) h1N
      rwa [hrnd.fix_one] at h
    have hrw_ge : rnd (N : ℚ) ≤ rnd (num_threads env N : ℚ) := hrnd.mono _ _ hNW
    have hrw_pos : (0 : ℚ) < rnd (num_threads env N : ℚ) :=
      lt_of_lt_of_le one_pos (le_trans hrn1 hrw_ge)
    have hrw_le : rnd (num_threads env N : ℚ) ≤ (2 : ℚ) ^ 64 := by
      have h := hrnd.mono (num_threads env N : ℚ) ((2 : ℚ) ^ 64) hWle
      rwa [hrnd.fix_big] at h
    have hx1 : rnd (N : ℚ) / rnd (num_threads env N : ℚ) ≤ 1 :=
      (div_le_one hrw_pos).mpr hrw_ge
    have hxs : ((2 : ℚ) ^ 64)⁻¹ ≤ rnd (N : ℚ) / rnd (num_threads env N : ℚ) := by
      have ha : (1 : ℚ) / (2 : ℚ) ^ 64 ≤ 1 / rnd (num_threads env N : ℚ) :=
        one_div_le_one_div_of_le hrw_pos hrw_le
      have hb : (1 : ℚ) / rnd (num_threads env N : ℚ)
          ≤ rnd (N : ℚ) / rnd (num_threads env N : ℚ) := by gcongr
      rw [inv_eq_one_div]
      exact le_trans ha hb
    have hr1 : rnd (rnd (N : ℚ) / rnd (num_threads env N : ℚ)) ≤ 1 := by
      have h := hrnd.mono _ 1 hx1
      rwa [hrnd.fix_one] at h
    have hrpos : (0 : ℚ) < rnd (rnd (N : ℚ) / rnd (num_threads env N : ℚ)) := by
      have h := hrnd.mono _ _ hxs
      rw [hrnd.fix_small] at h
      have hsmall : (0 : ℚ) < ((2 : ℚ) ^ 64)⁻¹ := by positivity
      linarith
    have hceil : ⌈rnd (rnd (N : ℚ) / rnd (num_threads env N : ℚ))⌉ = 1 := by
      rw [Int.ceil_eq_iff]
      push_cast
      constructor <;> linarith
    have hceilx : ⌈(N : ℚ) / (num_threads env N : ℚ)⌉ = 1 := by
      have hpos : (0 : ℚ) < (N : ℚ) / (num_threads env N : ℚ) :=
        div_pos (by linarith) hWQ
      have hle : (N : ℚ) / (num_threads env N : ℚ) ≤ 1 := (div_le_one hWQ).mpr hNW
      rw [Int.ceil_eq_iff]
      push_cast
      constructor <;> linarith
    have hcs : chunk_size N (num_threads env N) = 1 := by
      unfold chunk_size
      rw [if_neg hWne]
      have h1 : N + num_threads env N - 1 = (N - 1) + num_threads env N := by omega
      rw [h1, Nat.add_div_right _ hWpos, Nat.div_eq_of_lt (by omega)]
    rw [hceil, hceilx, hcs]
    exact ⟨rfl, rfl⟩

/-- Witness for `float_chunk_size`: the identity rounding (which satisfies
`F64Round`), the absent configuration and a one-job batch, where the
effective worker count is 8 and the rounded ceiling evaluates to the chunk
size 1. -/
theorem float_chunk_size_witness :
    F64Round (fun x : ℚ => x)
    ∧ 1 ≤ num_threads none 1 ∧ (1 : Nat) ≤ 2 ^ 64
    ∧ (⌈((1 : Nat) : ℚ) / (num_threads none 1 : ℚ)⌉).toNat
        = chunk_size 1 (num_threads none 1) := by
  have hid : F64Round (fun x : ℚ => x) := ⟨fun _ _ h => h, rfl, rfl, rfl, rfl⟩
  have h1 : 1 ≤ num_threads none 1 := by decide
  have h2 : (1 : Nat) ≤ 2 ^ 64 := Nat.one_le_two_pow
  exact ⟨hid, h1, h2, (float_chunk_size (fun x : ℚ => x) hid none 1 h1 h2).2⟩

end PngCompressor
